import Mathlib

/-
Verification of the source-normalisation and formatting utilities of
`src/assistant/utils.py`: `deduplicate_and_format_sources` and
`format_sources`.  The Python code is embedded shallowly: Python values
are modelled by the inductive `PyVal` (strings, `None`, string-keyed
dicts, lists), Python exceptions by `PyErr`, and each statement of the
two functions is translated into `Except PyErr` code that follows the
source line by line.  The `print` diagnostic on missing raw content is
modelled by returning an accumulated list of warning strings alongside
the formatted text.
-/

/-- Python values as consumed by the utility functions: strings, `None`
(constructor `null`), dicts with string keys, and lists. -/
inductive PyVal where
  | str (s : String)
  | null
  | dict (entries : List (String × PyVal))
  | list (items : List PyVal)

/-- Python exceptions the embedded code can raise.  The `ValueError` of
`utils.py` line 23 ("Input must be either a dict with 'results' or a list
of search results") is the spec's `InvalidInputKind`. -/
inductive PyErr where
  | valueError
  | keyError
  | typeError
  | attributeError
deriving DecidableEq

/-- First-match lookup in a dict's entry list; Python dicts have unique
keys, so first-match agrees with dict lookup on every value we build. -/
def lookupEntries : List (String × PyVal) → String → Option PyVal
  | [], _ => Option.none
  | (k, v) :: rest, key => if k = key then some v else lookupEntries rest key

/-- Clamped stop index of the Python slice `x[:k]` on a sequence of
length `n` (a negative `k` counts from the end, clamped at `0`). -/
def sliceStop (n : Nat) (k : Int) : Nat :=
  (if k < 0 then max ((n : Int) + k) 0 else min k (n : Int)).toNat

/-- Python `s[:k]` on a string. -/
def pySliceStr (s : String) (k : Int) : String :=
  String.mk (s.toList.take (sliceStop s.length k))

namespace PyVal

/-- Python `v[key]` for a string key: dict lookup, `KeyError` when the
key is missing, `TypeError` when `v` is not a dict (string indices must
be integers; `None`/list subscripting with a string also fails). -/
def getItem : PyVal → String → Except PyErr PyVal
  | dict es, key =>
      match lookupEntries es key with
      | some v => Except.ok v
      | Option.none => Except.error PyErr.keyError
  | _, _ => Except.error PyErr.typeError

/-- Python `v.get(key, default)`: only dicts have `.get`
(`AttributeError` otherwise). -/
def getDefault : PyVal → String → PyVal → Except PyErr PyVal
  | dict es, key, d => Except.ok ((lookupEntries es key).getD d)
  | _, _, _ => Except.error PyErr.attributeError

/-- Python iteration: lists yield their items, dicts their keys, strings
their characters (as one-character strings); `None` is not iterable. -/
def iter : PyVal → Except PyErr (List PyVal)
  | list xs => Except.ok xs
  | dict es => Except.ok (es.map (fun kv => str kv.1))
  | str s => Except.ok (s.toList.map (fun c => str (String.mk [c])))
  | null => Except.error PyErr.typeError

/-- Python `v is None`. -/
def isNull : PyVal → Bool
  | null => true
  | _ => false

/-- Whether `v` is a dict (`isinstance(v, dict)`). -/
def isDict : PyVal → Bool
  | dict _ => true
  | _ => false

/-- Whether `v` is a list (`isinstance(v, list)`). -/
def isList : PyVal → Bool
  | list _ => true
  | _ => false

/-- Python hashability: dicts and lists are unhashable and cannot be
used as dict keys. -/
def hashable : PyVal → Bool
  | dict _ => false
  | list _ => false
  | _ => true

/-- Equality test used for dict-key membership; the code only compares
keys after the hashability check, so only strings and `None` reach it. -/
def keyEq : PyVal → PyVal → Bool
  | str a, str b => a == b
  | null, null => true
  | _, _ => false

/-- Python `len(v)`: `None` has no length. -/
def pyLen : PyVal → Except PyErr Int
  | str s => Except.ok (s.length : Int)
  | list xs => Except.ok (xs.length : Int)
  | dict es => Except.ok (es.length : Int)
  | null => Except.error PyErr.typeError

/-- Python `v[:k]`: strings and lists slice, dicts and `None` do not. -/
def pySlice : PyVal → Int → Except PyErr PyVal
  | str s, k => Except.ok (str (pySliceStr s k))
  | list xs, k => Except.ok (list (xs.take (sliceStop xs.length k)))
  | _, _ => Except.error PyErr.typeError

/-- Python `a + b`: string and list concatenation only. -/
def pyAdd : PyVal → PyVal → Except PyErr PyVal
  | str a, str b => Except.ok (str (a ++ b))
  | list a, list b => Except.ok (list (a ++ b))
  | _, _ => Except.error PyErr.typeError

mutual

/-- Python `repr(v)` (string-escaping inside quotes is not modelled; no
claim depends on it). -/
def pyRepr : PyVal → String
  | str s => "'" ++ s ++ "'"
  | null => "None"
  | list xs => "[" ++ pyReprList xs ++ "]"
  | dict es => "\x7b" ++ pyReprEntries es ++ "\x7d"

/-- Comma-separated reprs of a list's items. -/
def pyReprList : List PyVal → String
  | [] => ""
  | [x] => pyRepr x
  | x :: rest => pyRepr x ++ ", " ++ pyReprList rest

/-- Comma-separated reprs of a dict's entries. -/
def pyReprEntries : List (String × PyVal) → String
  | [] => ""
  | [kv] => "'" ++ kv.1 ++ "': " ++ pyRepr kv.2
  | kv :: rest => "'" ++ kv.1 ++ "': " ++ pyRepr kv.2 ++ ", " ++ pyReprEntries rest

end

/-- Python `str(v)` as used by f-string interpolation. -/
def pyStr : PyVal → String
  | str s => s
  | v => pyRepr v

end PyVal

/-- Characters stripped by Python's `str.strip()` (the ASCII whitespace
subset; the formatter only ever produces spaces and newlines). -/
def pyIsSpace (c : Char) : Bool :=
  c == ' ' || c == '\t' || c == '\n' || c == '\r' || c == '\x0b' || c == '\x0c'

/-- Strip leading and trailing whitespace from a character list. -/
def stripList (l : List Char) : List Char :=
  ((l.dropWhile pyIsSpace).reverse.dropWhile pyIsSpace).reverse

/-- Python `s.strip()`. -/
def pyStrip (s : String) : String :=
  String.mk (stripList s.toList)

namespace Utils

/-- One step of `sources_list.extend(...)` in the list branch of
`utils.py` lines 17-21: a dict carrying a `results` field contributes
that field's iteration, anything else is iterated directly. -/
def extendStep (acc : List PyVal) (response : PyVal) : Except PyErr (List PyVal) := do
  match response with
  | PyVal.dict es =>
      match lookupEntries es "results" with
      | some v => return acc ++ (← v.iter)
      | Option.none => return acc ++ (← response.iter)
  | _ => return acc ++ (← response.iter)

/-- `utils.py` lines 13-23: convert the input to the flat `sources_list`.
A dict yields its `results` value unexamined (iteration of that value
happens later, at the dedup loop); a list is flattened eagerly by
`extend`; anything else raises the `ValueError` (`InvalidInputKind`). -/
def normalize (search_response : PyVal) : Except PyErr PyVal := do
  match search_response with
  | PyVal.dict es =>
      match lookupEntries es "results" with
      | some v => return v
      | Option.none => Except.error PyErr.keyError
  | PyVal.list rs => return PyVal.list (← rs.foldlM extendStep [])
  | _ => Except.error PyErr.valueError

/-- `utils.py` lines 26-29: the dedup loop.  `unique_sources` is the
insertion-ordered dict as an association list; `source['url'] not in
unique_sources` first hashes the key (`TypeError` on unhashable urls). -/
def dedupLoop (unique_sources : List (PyVal × PyVal)) : List PyVal → Except PyErr (List (PyVal × PyVal))
  | [] => Except.ok unique_sources
  | source :: rest => do
      let url ← source.getItem "url"
      if url.hashable then
        if unique_sources.any (fun kv => kv.1.keyEq url) then
          dedupLoop unique_sources rest
        else
          dedupLoop (unique_sources ++ [(url, source)]) rest
      else
        Except.error PyErr.typeError

/-- Body of the formatting loop, `utils.py` lines 34-47: the block of
text appended for one source, together with the warnings printed while
producing it. -/
def formatSource (source : PyVal) (max_tokens_per_source : Int) (include_raw_content : Bool) : Except PyErr (String × List String) := do
  let title ← source.getItem "title"
  let url ← source.getItem "url"
  let content ← source.getItem "content"
  let block :=
    "Source " ++ title.pyStr ++ ":\n===\n" ++
    "URL: " ++ url.pyStr ++ "\n===\n" ++
    "Most relevant content from source: " ++ content.pyStr ++ "\n===\n"
  if include_raw_content then
    let char_limit := max_tokens_per_source * 4
    let raw0 ← source.getDefault "raw_content" (PyVal.str "")
    let resolved :=
      if raw0.isNull then
        (PyVal.str "", ["Warning: No raw_content found for source " ++ url.pyStr])
      else
        (raw0, ([] : List String))
    let n ← resolved.1.pyLen
    let raw2 ←
      if n > char_limit then do
        let cut ← resolved.1.pySlice char_limit
        cut.pyAdd (PyVal.str "... [truncated]")
      else
        pure resolved.1
    return (block ++ "Full source content limited to " ++ toString max_tokens_per_source ++
      " tokens: " ++ raw2.pyStr ++ "\n\n", resolved.2)
  else
    return (block, [])

/-- `utils.py` lines 32-49: fold the per-source blocks onto the
`"Sources:\n\n"` header and strip the final text. -/
def formatUnique (unique_sources : List (PyVal × PyVal)) (max_tokens_per_source : Int) (include_raw_content : Bool) : Except PyErr (String × List String) := do
  let r ← unique_sources.foldlM
    (fun acc kv => do
      let bw ← formatSource kv.2 max_tokens_per_source include_raw_content
      return (acc.1 ++ bw.1, acc.2 ++ bw.2))
    ("Sources:\n\n", ([] : List String))
  return (pyStrip r.1, r.2)

/-- `utils.py` lines 6-49, `deduplicate_and_format_sources`: normalize
the input, iterate it (`for source in sources_list`), deduplicate by
url, format.  Returns the formatted text and the printed warnings. -/
def deduplicate_and_format_sources (search_response : PyVal) (max_tokens_per_source : Int) (include_raw_content : Bool) : Except PyErr (String × List String) := do
  let sources_list ← normalize search_response
  let srcs ← sources_list.iter
  let unique_sources ← dedupLoop [] srcs
  formatUnique unique_sources max_tokens_per_source include_raw_content

/-- `utils.py` lines 51-63, `format_sources`: one `"* title : url"` line
per result, newline-joined. -/
def format_sources (search_results : PyVal) : Except PyErr String := do
  let results ← search_results.getItem "results"
  let items ← results.iter
  let lines ← items.mapM (fun source => do
    let t ← source.getItem "title"
    let u ← source.getItem "url"
    return "* " ++ t.pyStr ++ " : " ++ u.pyStr)
  return String.intercalate "\n" lines

end Utils

/-- The three states of a SearchResult's `raw_content` field: key absent,
key present with value `None`, or a string. -/
inductive RawContent where
  | absent
  | null
  | text (s : String)
deriving DecidableEq

/-- A well-formed SearchResult record as described by the data model:
`title`, `url`, `content` strings, `raw_content` optional. -/
structure Source where
  title : String
  url : String
  content : String
  raw_content : RawContent
deriving DecidableEq

/-- Encoding of a well-formed SearchResult as the Python dict the code
consumes; an absent `raw_content` contributes no entry. -/
def Source.toPyVal (s : Source) : PyVal :=
  PyVal.dict
    ([("title", PyVal.str s.title), ("url", PyVal.str s.url), ("content", PyVal.str s.content)] ++
      (match s.raw_content with
       | RawContent.absent => []
       | RawContent.null => [("raw_content", PyVal.null)]
       | RawContent.text r => [("raw_content", PyVal.str r)]))

/-- A single SearchResponse dict `\x7b"results": [...]\x7d` built from
well-formed records. -/
def mkResponse (rs : List Source) : PyVal :=
  PyVal.dict [("results", PyVal.list (rs.map Source.toPyVal))]

/-- The dict entry `(url, record)` the dedup loop inserts for an encoded
record. -/
def pairEnc (s : Source) : PyVal × PyVal :=
  (PyVal.str s.url, s.toPyVal)

/-- Reference description of the dedup loop on well-formed records:
keep a record iff its url is in neither `seen` nor the earlier part of
the list. -/
def dedupSeen (seen : List String) : List Source → List Source
  | [] => []
  | s :: rest =>
      if s.url ∈ seen then dedupSeen seen rest
      else s :: dedupSeen (seen ++ [s.url]) rest

/-- The records `deduplicate_and_format_sources` retains, in order. -/
def dedupSources (rs : List Source) : List Source :=
  dedupSeen [] rs

/-- Concatenation of a list of strings. -/
def strJoin : List String → String
  | [] => ""
  | s :: rest => s ++ strJoin rest

/-- Concatenation of a list of lists. -/
def listJoin {α : Type} : List (List α) → List α
  | [] => []
  | l :: rest => l ++ listJoin rest

/-- The always-present three header lines of a record's block. -/
def headerBlock (s : Source) : String :=
  "Source " ++ s.title ++ ":\n===\n" ++
  "URL: " ++ s.url ++ "\n===\n" ++
  "Most relevant content from source: " ++ s.content ++ "\n===\n"

/-- The string the code substitutes for a record's raw content before
truncation: the text itself, or `""` when absent or null. -/
def resolvedRawStr (s : Source) : String :=
  match s.raw_content with
  | RawContent.text r => r
  | _ => ""

/-- The truncation `utils.py` lines 45-46 applies to a raw-content
string under token budget `m`. -/
def truncateRaw (r : String) (m : Int) : String :=
  if (r.length : Int) > m * 4 then pySliceStr r (m * 4) ++ "... [truncated]" else r

/-- The block of text the formatting loop emits for one well-formed
record. -/
def blockOf (s : Source) (m : Int) (inc : Bool) : String :=
  headerBlock s ++
    (if inc then
      "Full source content limited to " ++ toString m ++ " tokens: " ++
        truncateRaw (resolvedRawStr s) m ++ "\n\n"
     else "")

/-- The warnings printed while formatting one well-formed record: one
warning exactly when raw content is included and the field is null. -/
def warnsOf (s : Source) (inc : Bool) : List String :=
  if inc then
    (match s.raw_content with
     | RawContent.null => ["Warning: No raw_content found for source " ++ s.url]
     | _ => [])
  else []

/-- An element of a normalised sequence input: either a SearchResponse
object or a plain sequence of SearchResult records. -/
inductive NormItem where
  | resp (rs : List Source)
  | flat (rs : List Source)

/-- Encoding of a sequence element as the Python value the code sees. -/
def NormItem.toPyVal : NormItem → PyVal
  | NormItem.resp rs => PyVal.dict [("results", PyVal.list (rs.map Source.toPyVal))]
  | NormItem.flat rs => PyVal.list (rs.map Source.toPyVal)

/-- The records an element contributes. -/
def NormItem.sources : NormItem → List Source
  | NormItem.resp rs => rs
  | NormItem.flat rs => rs

/-- Sample records used by the concrete witnesses and counterexamples. -/
def srcA : Source := ⟨"A", "u1", "c1", RawContent.absent⟩

def srcA2 : Source := ⟨"A2", "u1", "c2", RawContent.absent⟩

def srcB : Source := ⟨"B", "u2", "c3", RawContent.absent⟩

def srcNull : Source := ⟨"A", "u1", "c1", RawContent.null⟩

/-- Thirty `a` characters, the raw content of the spec's truncation
scenario. -/
def aThirty : String := String.mk (List.replicate 30 'a')

lemma getItem_title (s : Source) : s.toPyVal.getItem "title" = Except.ok (PyVal.str s.title) := by
  obtain ⟨t, u, c, rc⟩ := s
  cases rc <;> rfl

lemma getItem_url (s : Source) : s.toPyVal.getItem "url" = Except.ok (PyVal.str s.url) := by
  obtain ⟨t, u, c, rc⟩ := s
  cases rc <;> rfl

lemma getItem_content (s : Source) : s.toPyVal.getItem "content" = Except.ok (PyVal.str s.content) := by
  obtain ⟨t, u, c, rc⟩ := s
  cases rc <;> rfl

lemma getDefault_raw (s : Source) :
    s.toPyVal.getDefault "raw_content" (PyVal.str "") =
      Except.ok (match s.raw_content with
        | RawContent.absent => PyVal.str ""
        | RawContent.null => PyVal.null
        | RawContent.text r => PyVal.str r) := by
  obtain ⟨t, u, c, rc⟩ := s
  cases rc <;> rfl

/-- The block emitted for one well-formed record, with its warnings. -/
lemma formatSource_enc (s : Source) (m : Int) (inc : Bool) :
    Utils.formatSource s.toPyVal m inc = Except.ok (blockOf s m inc, warnsOf s inc) := by
  obtain ⟨t, u, c, rc⟩ := s
  cases inc <;> cases rc <;>
    simp only [Utils.formatSource, getItem_title, getItem_url, getItem_content, getDefault_raw,
      blockOf, warnsOf, headerBlock, resolvedRawStr, truncateRaw, PyVal.pyStr, PyVal.isNull,
      PyVal.pyLen, PyVal.pySlice, PyVal.pyAdd, bind, Except.bind, pure, Except.pure,
      Bool.false_eq_true, if_false, if_true, ite_true, ite_false, String.append_assoc,
      String.append_empty]
  all_goals try split
  all_goals simp [PyVal.pyStr, String.append_assoc, String.append_empty]

lemma bindOk {α β : Type} (a : α) (f : α → Except PyErr β) :
    (Except.ok a >>= f : Except PyErr β) = f a := rfl

lemma bindErr {α β : Type} (e : PyErr) (f : α → Except PyErr β) :
    (Except.error e >>= f : Except PyErr β) = Except.error e := rfl

lemma pureOk {α : Type} (a : α) : (pure a : Except PyErr α) = Except.ok a := rfl

/-- The formatting fold over encoded records, from an arbitrary
accumulator. -/
lemma foldBlocks (m : Int) (inc : Bool) (L : List Source) :
    ∀ (t0 : String) (w0 : List String),
      (L.map pairEnc).foldlM
        (fun acc kv => do
          let bw ← Utils.formatSource kv.2 m inc
          return (acc.1 ++ bw.1, acc.2 ++ bw.2))
        (t0, w0) =
      Except.ok (t0 ++ strJoin (L.map (fun s => blockOf s m inc)),
                 w0 ++ listJoin (L.map (fun s => warnsOf s inc))) := by
  induction L with
  | nil =>
      intro t0 w0
      simp [strJoin, listJoin, String.append_empty, pureOk]
  | cons s rest ih =>
      intro t0 w0
      simp only [List.map_cons, List.foldlM_cons, pairEnc, formatSource_enc, bindOk, pure_bind]
      rw [ih]
      simp [strJoin, listJoin, String.append_assoc]

/-- `formatUnique` on encoded records: header, concatenated blocks,
stripped; warnings concatenated in order. -/
lemma formatUnique_enc (L : List Source) (m : Int) (inc : Bool) :
    Utils.formatUnique (L.map pairEnc) m inc =
      Except.ok (pyStrip ("Sources:\n\n" ++ strJoin (L.map (fun s => blockOf s m inc))),
                 listJoin (L.map (fun s => warnsOf s inc))) := by
  show ((L.map pairEnc).foldlM
        (fun acc kv => do
          let bw ← Utils.formatSource kv.2 m inc
          return (acc.1 ++ bw.1, acc.2 ++ bw.2))
        ("Sources:\n\n", ([] : List String)) >>=
      fun r => pure (pyStrip r.1, r.2)) = _
  rw [foldBlocks]
  simp [bindOk, pureOk]

/-- Membership of an encoded url among the accumulated dict keys agrees
with membership in the `seen` url list. -/
lemma any_keyEq (seen : List String) (acc : List (PyVal × PyVal))
    (hacc : acc.map Prod.fst = seen.map PyVal.str) (u : String) :
    acc.any (fun kv => kv.1.keyEq (PyVal.str u)) = decide (u ∈ seen) := by
  by_cases hs : u ∈ seen
  · rw [decide_eq_true hs]
    have hmem : PyVal.str u ∈ acc.map Prod.fst := by
      rw [hacc]
      exact List.mem_map_of_mem _ hs
    obtain ⟨kv, hkv, hfst⟩ := List.mem_map.mp hmem
    refine List.any_eq_true.mpr ⟨kv, hkv, ?_⟩
    rw [hfst]
    simp [PyVal.keyEq]
  · rw [decide_eq_false hs]
    refine List.any_eq_false.mpr ?_
    intro kv hkv
    have hmem : kv.1 ∈ seen.map PyVal.str := by
      rw [← hacc]
      exact List.mem_map_of_mem _ hkv
    obtain ⟨v, hv, hveq⟩ := List.mem_map.mp hmem
    rw [← hveq]
    have hne : v ≠ u := fun h => hs (h ▸ hv)
    simp [PyVal.keyEq, hne]

/-- The dedup loop on encoded records, generalised over the accumulated
dict: it appends exactly the records `dedupSeen` keeps. -/
lemma dedupLoop_enc (rs : List Source) :
    ∀ (seen : List String) (acc : List (PyVal × PyVal)),
      acc.map Prod.fst = seen.map PyVal.str →
      Utils.dedupLoop acc (rs.map Source.toPyVal) =
        Except.ok (acc ++ (dedupSeen seen rs).map pairEnc) := by
  induction rs with
  | nil =>
      intro seen acc hacc
      simp [Utils.dedupLoop, dedupSeen]
  | cons s rest ih =>
      intro seen acc hacc
      have hany := any_keyEq seen acc hacc s.url
      by_cases hs : s.url ∈ seen
      · rw [decide_eq_true hs] at hany
        simp only [List.map_cons, Utils.dedupLoop, getItem_url, bindOk, PyVal.hashable, hany,
          if_true]
        rw [ih seen acc hacc]
        simp [dedupSeen, hs]
      · rw [decide_eq_false hs] at hany
        simp only [List.map_cons, Utils.dedupLoop, getItem_url, bindOk, PyVal.hashable, hany,
          Bool.false_eq_true, if_false, if_true]
        rw [ih (seen ++ [s.url]) (acc ++ [(PyVal.str s.url, s.toPyVal)]) (by simp [hacc])]
        simp [dedupSeen, hs, pairEnc]

/-- Full closed form of `deduplicate_and_format_sources` on a response
built from well-formed records. -/
lemma pipeline_enc (rs : List Source) (m : Int) (inc : Bool) :
    Utils.deduplicate_and_format_sources (mkResponse rs) m inc =
      Except.ok
        (pyStrip ("Sources:\n\n" ++ strJoin ((dedupSources rs).map (fun s => blockOf s m inc))),
         listJoin ((dedupSources rs).map (fun s => warnsOf s inc))) := by
  have hnorm : Utils.normalize (mkResponse rs) =
      Except.ok (PyVal.list (rs.map Source.toPyVal)) := rfl
  have hiter : (PyVal.list (rs.map Source.toPyVal)).iter =
      Except.ok (rs.map Source.toPyVal) := rfl
  have hded := dedupLoop_enc rs [] [] (by simp)
  simp only [Utils.deduplicate_and_format_sources, hnorm, bindOk, hiter]
  rw [hded]
  simp only [bindOk, List.nil_append, dedupSources]
  exact formatUnique_enc (dedupSeen [] rs) m inc

lemma stripList_eq_rdropWhile (l : List Char) :
    stripList l = List.rdropWhile pyIsSpace (l.dropWhile pyIsSpace) := rfl

lemma dropWhile_append_left {α : Type} (p : α → Bool) (x y : List α) (hx : x.dropWhile p ≠ []) :
    (x ++ y).dropWhile p = x.dropWhile p ++ y := by
  induction x with
  | nil => simp at hx
  | cons c x ih =>
      by_cases hc : p c = true
      · have hx' : x.dropWhile p ≠ [] := by
          rwa [List.dropWhile_cons_of_pos hc] at hx
        rw [List.cons_append, List.dropWhile_cons_of_pos hc, List.dropWhile_cons_of_pos hc,
          ih hx']
      · rw [List.cons_append, List.dropWhile_cons_of_neg hc, List.dropWhile_cons_of_neg hc,
          List.cons_append]

lemma rdropWhile_append_left (p : Char → Bool) (x y : List Char)
    (hy : List.rdropWhile p y ≠ []) :
    List.rdropWhile p (x ++ y) = x ++ List.rdropWhile p y := by
  have hy' : y.reverse.dropWhile p ≠ [] := by
    intro h
    apply hy
    simp [List.rdropWhile, h]
  simp only [List.rdropWhile, List.reverse_append]
  rw [dropWhile_append_left p y.reverse x.reverse hy', List.reverse_append,
    List.reverse_reverse]

/-- Stripping a string that starts with the header and goes on with text
containing a non-whitespace character only strips at the very end. -/
lemma stripList_header (q : List Char) (hq : ∃ c ∈ q, pyIsSpace c = false) :
    stripList ("Sources:\n\n".toList ++ q) =
      "Sources:\n\n".toList ++ List.rdropWhile pyIsSpace q := by
  rw [stripList_eq_rdropWhile]
  have h1 : ("Sources:\n\n".toList ++ q).dropWhile pyIsSpace = "Sources:\n\n".toList ++ q := by
    rw [show ("Sources:\n\n".toList) = 'S' :: "ources:\n\n".toList from rfl, List.cons_append,
      List.dropWhile_cons_of_neg (by decide)]
  rw [h1]
  apply rdropWhile_append_left
  intro h
  rw [List.rdropWhile_eq_nil_iff] at h
  obtain ⟨c, hc, hcf⟩ := hq
  rw [h c hc] at hcf
  cases hcf

lemma toList_append (a b : String) : (a ++ b).toList = a.toList ++ b.toList :=
  String.data_append a b

lemma mem_toList_append_left (c : Char) (a b : String) (h : c ∈ a.toList) :
    c ∈ (a ++ b).toList := by
  rw [toList_append]
  exact List.mem_append_left _ h

/-- Every emitted block contains the non-whitespace character `S` (from
its `"Source ..."` first line). -/
lemma S_mem_blockOf (s : Source) (m : Int) (inc : Bool) :
    'S' ∈ (blockOf s m inc).toList := by
  unfold blockOf headerBlock
  iterate 9 refine mem_toList_append_left _ _ _ ?_
  decide

lemma iter_error (v : PyVal) (e : PyErr) (h : v.iter = Except.error e) :
    e = PyErr.typeError := by
  cases v <;> simp [PyVal.iter] at h
  exact h.symm

lemma bind_pure_error {α β : Type} (x : Except PyErr α) (f : α → β) (e : PyErr)
    (h : (x >>= fun a => pure (f a)) = Except.error e) : x = Except.error e := by
  cases x with
  | ok a => simp [bindOk, pureOk] at h
  | error e' => simpa [bindErr] using h

/-- The only exception a single `extend` step can raise is the
`TypeError` of iterating a non-iterable. -/
lemma extendStep_error (acc : List PyVal) (r : PyVal) (e : PyErr)
    (h : Utils.extendStep acc r = Except.error e) : e = PyErr.typeError := by
  cases r with
  | str s =>
      exact iter_error _ e (bind_pure_error _ _ e h)
  | null =>
      exact iter_error _ e (bind_pure_error _ _ e h)
  | list xs =>
      exact iter_error _ e (bind_pure_error _ _ e h)
  | dict es =>
      cases hlk : lookupEntries es "results" with
      | some v =>
          simp only [Utils.extendStep, hlk] at h
          exact iter_error _ e (bind_pure_error _ _ e h)
      | none =>
          simp only [Utils.extendStep, hlk] at h
          exact iter_error _ e (bind_pure_error _ _ e h)

/-- The list branch of `normalize` never raises the `ValueError`. -/
lemma foldl_extend_no_valueError (items : List PyVal) :
    ∀ acc : List PyVal, items.foldlM Utils.extendStep acc ≠ Except.error PyErr.valueError := by
  induction items with
  | nil =>
      intro acc h
      rw [List.foldlM_nil, pureOk] at h
      cases h
  | cons r rest ih =>
      intro acc h
      rw [List.foldlM_cons] at h
      cases hstep : Utils.extendStep acc r with
      | ok acc' =>
          rw [hstep, bindOk] at h
          exact ih acc' h
      | error e =>
          rw [hstep, bindErr] at h
          rw [extendStep_error acc r e hstep] at h
          simp at h

/-- The `extend` fold on encoded sequence elements concatenates their
records in order. -/
lemma foldl_extend_enc (items : List NormItem) :
    ∀ acc : List PyVal,
      (items.map NormItem.toPyVal).foldlM Utils.extendStep acc =
        Except.ok (acc ++ listJoin (items.map (fun it => it.sources.map Source.toPyVal))) := by
  induction items with
  | nil =>
      intro acc
      simp only [List.map_nil, List.foldlM_nil, listJoin, List.append_nil, pureOk]
  | cons it rest ih =>
      intro acc
      rw [List.map_cons, List.foldlM_cons]
      cases it with
      | resp rs =>
          have hstep : Utils.extendStep acc (NormItem.resp rs).toPyVal =
              Except.ok (acc ++ rs.map Source.toPyVal) := rfl
          rw [hstep, bindOk, ih]
          simp [NormItem.sources, listJoin, List.append_assoc]
      | flat rs =>
          have hstep : Utils.extendStep acc (NormItem.flat rs).toPyVal =
              Except.ok (acc ++ rs.map Source.toPyVal) := rfl
          rw [hstep, bindOk, ih]
          simp [NormItem.sources, listJoin, List.append_assoc]

lemma take_min_length {α : Type} (l : List α) (k : Nat) :
    l.take (min k l.length) = l.take k := by
  rcases Nat.le_total k l.length with h | h
  · rw [Nat.min_eq_left h]
  · rw [Nat.min_eq_right h, List.take_of_length_le (le_refl _), List.take_of_length_le h]

/-- With the raw-content switch off, a record's block is exactly its
three header lines. -/
lemma blockOf_false (s : Source) (m : Int) : blockOf s m false = headerBlock s := by
  simp [blockOf, String.append_empty]

lemma warnsOf_false (s : Source) : warnsOf s false = [] := by
  simp [warnsOf]

lemma listJoin_of_nil {α : Type} (L : List Source) (f : Source → List α)
    (hf : ∀ s, f s = []) : listJoin (L.map f) = [] := by
  induction L with
  | nil => rfl
  | cons s rest ih => simp [listJoin, hf, ih]

/-- The bullet lines of `format_sources` on encoded records. -/
lemma mapM_lines (rs : List Source) :
    (rs.map Source.toPyVal).mapM (fun source => do
      let t ← source.getItem "title"
      let u ← source.getItem "url"
      return "* " ++ t.pyStr ++ " : " ++ u.pyStr) =
    Except.ok (rs.map (fun s => "* " ++ s.title ++ " : " ++ s.url)) := by
  induction rs with
  | nil => rfl
  | cons s rest ih =>
      rw [List.map_cons, List.mapM_cons, ih]
      simp only [getItem_title, getItem_url, bindOk, pureOk, PyVal.pyStr]
      rfl

lemma bindCongr {α β : Type} (x : Except PyErr α) (f g : α → Except PyErr β)
    (h : ∀ a, f a = g a) : (x >>= f) = (x >>= g) := by
  cases x with
  | ok a => rw [bindOk, bindOk, h]
  | error e => rw [bindErr, bindErr]

/-- With the raw-content switch off, the token budget is never read. -/
lemma formatSource_no_budget (src : PyVal) (m1 m2 : Int) :
    Utils.formatSource src m1 false = Utils.formatSource src m2 false := rfl

/-- What `dedupSeen` keeps is a sublist of its input. -/
lemma dedupSeen_sublist (rs : List Source) :
    ∀ seen : List String, (dedupSeen seen rs).Sublist rs := by
  induction rs with
  | nil =>
      intro seen
      simp [dedupSeen]
  | cons s rest ih =>
      intro seen
      by_cases hs : s.url ∈ seen
      · simp only [dedupSeen, if_pos hs]
        exact (ih seen).cons s
      · simp only [dedupSeen, if_neg hs]
        exact (ih (seen ++ [s.url])).cons₂ s

/-- No kept record has a url in `seen`. -/
lemma dedupSeen_not_seen (rs : List Source) :
    ∀ (seen : List String) (s : Source), s ∈ dedupSeen seen rs → s.url ∉ seen := by
  induction rs with
  | nil =>
      intro seen s hmem
      simp [dedupSeen] at hmem
  | cons t rest ih =>
      intro seen s hmem
      by_cases ht : t.url ∈ seen
      · rw [dedupSeen, if_pos ht] at hmem
        exact ih seen s hmem
      · rw [dedupSeen, if_neg ht] at hmem
        rcases List.mem_cons.mp hmem with heq | htail
        · exact heq ▸ ht
        · intro hs
          exact ih (seen ++ [t.url]) s htail (by simp [hs])

/-- The urls of the kept records are pairwise distinct. -/
lemma dedupSeen_nodup (rs : List Source) :
    ∀ seen : List String, ((dedupSeen seen rs).map (fun s => s.url)).Nodup := by
  induction rs with
  | nil =>
      intro seen
      simp [dedupSeen]
  | cons t rest ih =>
      intro seen
      by_cases ht : t.url ∈ seen
      · rw [dedupSeen, if_pos ht]
        exact ih seen
      · rw [dedupSeen, if_neg ht]
        refine List.Nodup.cons ?_ (ih (seen ++ [t.url]))
        intro hmem
        obtain ⟨s, hs, hurl⟩ := List.mem_map.mp hmem
        exact dedupSeen_not_seen rest (seen ++ [t.url]) s hs (by simp [hurl])

/-- Each kept record is the first input record bearing its url. -/
lemma dedupSeen_find (rs : List Source) :
    ∀ (seen : List String) (s : Source), s ∈ dedupSeen seen rs →
      rs.find? (fun t => t.url == s.url) = some s := by
  induction rs with
  | nil =>
      intro seen s hmem
      simp [dedupSeen] at hmem
  | cons t rest ih =>
      intro seen s hmem
      by_cases ht : t.url ∈ seen
      · rw [dedupSeen, if_pos ht] at hmem
        have hne : t.url ≠ s.url := by
          intro h
          exact dedupSeen_not_seen rest seen s hmem (h ▸ ht)
        rw [List.find?_cons_of_neg _ (by simp [hne])]
        exact ih seen s hmem
      · rw [dedupSeen, if_neg ht] at hmem
        rcases List.mem_cons.mp hmem with heq | htail
        · subst heq
          rw [List.find?_cons_of_pos _ (by simp)]
        · have hne : t.url ≠ s.url := by
            intro h
            exact dedupSeen_not_seen rest (seen ++ [t.url]) s htail (by simp [h])
          rw [List.find?_cons_of_neg _ (by simp [hne])]
          exact ih (seen ++ [t.url]) s htail

/-- Every input url either was already seen or is represented among the
kept records. -/
lemma dedupSeen_covers (rs : List Source) :
    ∀ (seen : List String) (t : Source), t ∈ rs →
      t.url ∈ seen ∨ ∃ s ∈ dedupSeen seen rs, s.url = t.url := by
  induction rs with
  | nil =>
      intro seen t hmem
      simp at hmem
  | cons r rest ih =>
      intro seen t hmem
      by_cases hr : r.url ∈ seen
      · rw [dedupSeen, if_pos hr]
        rcases List.mem_cons.mp hmem with heq | htail
        · exact Or.inl (heq ▸ hr)
        · exact ih seen t htail
      · rw [dedupSeen, if_neg hr]
        rcases List.mem_cons.mp hmem with heq | htail
        · exact Or.inr ⟨r, List.mem_cons_self r _, by rw [heq]⟩
        · rcases ih (seen ++ [r.url]) t htail with hseen | ⟨s, hs, hurl⟩
          · rcases List.mem_append.mp hseen with h | h
            · exact Or.inl h
            · refine Or.inr ⟨r, List.mem_cons_self r _, ?_⟩
              have : t.url = r.url := by simpa using h
              exact this.symm
          · exact Or.inr ⟨s, List.mem_cons_of_mem r hs, hurl⟩

/-- C1: the dedup stage of `deduplicate_and_format_sources` keeps, for
each url, exactly the first record bearing it (no merging), every input
url is represented by exactly one kept record, and the kept records
appear in first-occurrence order. -/
theorem dedup_retains_first_occurrence (rs : List Source) :
    Utils.dedupLoop [] (rs.map Source.toPyVal) =
        Except.ok ((dedupSources rs).map pairEnc) ∧
    ((dedupSources rs).map (fun s => s.url)).Nodup ∧
    ((dedupSources rs).all
        (fun s => rs.find? (fun t => t.url == s.url) == some s)) = true ∧
    (dedupSources rs).Sublist rs ∧
    (rs.all (fun t => (dedupSources rs).any (fun s => s.url == t.url))) = true := by
  refine ⟨?_, ?_, ?_, ?_, ?_⟩
  · have h := dedupLoop_enc rs [] [] (by simp)
    simpa [dedupSources] using h
  · exact dedupSeen_nodup rs []
  · refine List.all_eq_true.mpr ?_
    intro s hs
    rw [dedupSeen_find rs [] s hs]
    simp
  · exact dedupSeen_sublist rs []
  · refine List.all_eq_true.mpr ?_
    intro t ht
    rcases dedupSeen_covers rs [] t ht with h | ⟨s, hs, hurl⟩
    · simp at h
    · exact List.any_eq_true.mpr ⟨s, hs, by simp [hurl]⟩

/-- Witness for C1 at the spec's two-response scenario (`u1` occurs
twice, the record titled `A` wins). -/
theorem dedup_retains_first_occurrence_instance :
    Utils.dedupLoop [] ([srcA, srcA2, srcB].map Source.toPyVal) =
        Except.ok ((dedupSources [srcA, srcA2, srcB]).map pairEnc) ∧
    ((dedupSources [srcA, srcA2, srcB]).map (fun s => s.url)).Nodup ∧
    ((dedupSources [srcA, srcA2, srcB]).all
        (fun s => [srcA, srcA2, srcB].find? (fun t => t.url == s.url) == some s)) = true ∧
    (dedupSources [srcA, srcA2, srcB]).Sublist [srcA, srcA2, srcB] ∧
    ([srcA, srcA2, srcB].all
        (fun t => (dedupSources [srcA, srcA2, srcB]).any (fun s => s.url == t.url))) = true :=
  dedup_retains_first_occurrence [srcA, srcA2, srcB]

/-- C2: with raw content included and a string `raw_content`, the raw
section carries the content unmodified when its length is at most
`max_tokens_per_source * 4` characters, and otherwise exactly the first
`max_tokens_per_source * 4` characters followed by `"... [truncated]"`. -/
theorem raw_content_truncation (m : Int) (hm : 0 < m) (t u c r : String) :
    Utils.formatSource (Source.mk t u c (RawContent.text r)).toPyVal m true =
      Except.ok
        (headerBlock (Source.mk t u c (RawContent.text r)) ++
          ("Full source content limited to " ++ toString m ++ " tokens: " ++
            (if (r.length : Int) ≤ m * 4 then r
             else String.mk (r.toList.take ((m * 4).toNat)) ++ "... [truncated]") ++ "\n\n"),
         []) := by
  rw [formatSource_enc]
  have htr : truncateRaw r m =
      (if (r.length : Int) ≤ m * 4 then r
       else String.mk (r.toList.take ((m * 4).toNat)) ++ "... [truncated]") := by
    unfold truncateRaw
    by_cases h : (r.length : Int) ≤ m * 4
    · rw [if_neg (by omega), if_pos h]
    · rw [if_pos (by omega), if_neg h]
      congr 1
      unfold pySliceStr sliceStop
      rw [if_neg (by omega)]
      congr 1
      have hmin : ((min (m * 4) ((r.length : Nat) : Int)).toNat) = min ((m * 4).toNat) r.length := by
        omega
      rw [hmin]
      have hlen : r.length = r.toList.length := rfl
      rw [hlen, take_min_length]
  have hres : resolvedRawStr (Source.mk t u c (RawContent.text r)) = r := rfl
  have hw : warnsOf (Source.mk t u c (RawContent.text r)) true = [] := rfl
  rw [hw]
  simp only [blockOf, hres, htr, if_true]

/-- Witness for C2 at the spec's scenario: budget 5 tokens, thirty `a`
characters of raw content. -/
theorem raw_content_truncation_instance :
    (0 : Int) < 5 ∧
    Utils.formatSource (Source.mk "A" "u1" "c1" (RawContent.text aThirty)).toPyVal 5 true =
      Except.ok
        (headerBlock (Source.mk "A" "u1" "c1" (RawContent.text aThirty)) ++
          ("Full source content limited to " ++ toString (5 : Int) ++ " tokens: " ++
            (if (aThirty.length : Int) ≤ 5 * 4 then aThirty
             else String.mk (aThirty.toList.take (((5 : Int) * 4).toNat)) ++ "... [truncated]") ++ "\n\n"),
         []) :=
  ⟨by decide, raw_content_truncation 5 (by decide) "A" "u1" "c1" aThirty⟩

/-- C3 counterexample: a mapping without a `results` field is neither a
results-mapping nor a sequence, yet normalize raises the key-lookup
error, not `InvalidInputKind` (the `ValueError`). -/
theorem dict_without_results_keyerror :
    Utils.normalize (PyVal.dict []) = Except.error PyErr.keyError ∧
    PyErr.keyError ≠ PyErr.valueError :=
  ⟨rfl, by decide⟩

/-- C3 (amended): normalize raises `InvalidInputKind` (the `ValueError`)
exactly when the top-level input is neither a mapping nor a sequence; a
mapping is instead looked up for `results`, raising a key error when the
field is absent, and a sequence never raises `InvalidInputKind`. -/
theorem invalid_input_kind_iff :
    (∀ v : PyVal,
        (Utils.normalize v = Except.error PyErr.valueError) ↔
          (v.isDict = false ∧ v.isList = false)) ∧
    (∀ es : List (String × PyVal),
        Utils.normalize (PyVal.dict es) =
          (match lookupEntries es "results" with
           | some r => Except.ok r
           | Option.none => Except.error PyErr.keyError)) := by
  constructor
  · intro v
    cases v with
    | str s => simp [Utils.normalize, PyVal.isDict, PyVal.isList]
    | null => simp [Utils.normalize, PyVal.isDict, PyVal.isList]
    | dict es =>
        cases hlk : lookupEntries es "results" with
        | some r => simp [Utils.normalize, hlk, PyVal.isDict, pureOk]
        | none => simp [Utils.normalize, hlk, PyVal.isDict]
    | list rs =>
        simp only [PyVal.isDict, PyVal.isList]
        constructor
        · intro h
          exfalso
          have hform : Utils.normalize (PyVal.list rs) =
              (rs.foldlM Utils.extendStep [] >>= fun x => pure (PyVal.list x)) := rfl
          rw [hform] at h
          exact foldl_extend_no_valueError rs [] (bind_pure_error _ _ _ h)
        · rintro ⟨h1, h2⟩
          cases h2
  · intro es
    cases hlk : lookupEntries es "results" with
    | some r => simp [Utils.normalize, hlk, pureOk]
    | none => simp [Utils.normalize, hlk]

/-- C4 counterexample: with `raw_content` absent the code substitutes
the empty string without printing any warning, contrary to the claim
that a diagnostic accompanies every substitution. -/
theorem absent_raw_no_warning :
    Utils.formatSource srcA.toPyVal 5 true =
      Except.ok
        ("Source A:\n===\nURL: u1\n===\nMost relevant content from source: c1\n===\nFull source content limited to 5 tokens: \n\n",
         []) := rfl

/-- C4 (amended): an absent or null `raw_content` is replaced by the
empty string, no exception is raised, and the warning is printed exactly
when the field is present but null (absent keys are defaulted silently
by `.get`). -/
theorem missing_raw_content_handling (s : Source) (m : Int) (hm : 0 ≤ m)
    (h : s.raw_content = RawContent.null ∨ s.raw_content = RawContent.absent) :
    Utils.formatSource s.toPyVal m true =
      Except.ok
        (headerBlock s ++
          ("Full source content limited to " ++ toString m ++ " tokens: " ++ "" ++ "\n\n"),
         if s.raw_content = RawContent.null
         then ["Warning: No raw_content found for source " ++ s.url]
         else []) := by
  rw [formatSource_enc]
  have hres : resolvedRawStr s = "" := by
    rcases h with h | h <;> simp [resolvedRawStr, h]
  have hlen : ((("" : String).length : Nat) : Int) = 0 := rfl
  have htr : truncateRaw "" m = "" := by
    unfold truncateRaw
    rw [hlen, if_neg (by omega)]
  rcases h with h | h <;>
    simp [blockOf, warnsOf, hres, htr, h]

/-- Witness for C4 (amended) at the null-raw-content record: warning
printed, empty raw section, no exception. -/
theorem missing_raw_content_handling_instance :
    (0 : Int) ≤ 5 ∧
    (srcNull.raw_content = RawContent.null ∨ srcNull.raw_content = RawContent.absent) ∧
    Utils.formatSource srcNull.toPyVal 5 true =
      Except.ok
        (headerBlock srcNull ++
          ("Full source content limited to " ++ toString (5 : Int) ++ " tokens: " ++ "" ++ "\n\n"),
         if srcNull.raw_content = RawContent.null
         then ["Warning: No raw_content found for source " ++ srcNull.url]
         else []) :=
  ⟨by decide, Or.inl rfl, missing_raw_content_handling srcNull 5 (by decide) (Or.inl rfl)⟩

/-- C5 counterexample: with zero unique sources the trailing strip eats
the blank lines, so the returned text is `"Sources:"` and does not begin
with `"Sources:\n\n"`. -/
theorem empty_response_header_stripped :
    Utils.deduplicate_and_format_sources (mkResponse []) 5 false = Except.ok ("Sources:", []) ∧
    ¬ List.IsPrefix "Sources:\n\n".toList "Sources:".toList :=
  ⟨rfl, by decide⟩

/-- C5 (amended): the returned text is the stripped concatenation of the
`"Sources:\n\n"` header with exactly one block per unique url, in order;
it always begins with `"Sources:"`, and begins with the full
`"Sources:\n\n"` header whenever at least one unique source exists (with
zero sources stripping truncates the header to `"Sources:"`). -/
lemma pyStrip_toList (x : String) : (pyStrip x).toList = stripList x.toList := rfl

theorem output_header_and_blocks (rs : List Source) (m : Int) (inc : Bool) :
    ∃ out w,
      Utils.deduplicate_and_format_sources (mkResponse rs) m inc = Except.ok (out, w) ∧
      out = pyStrip ("Sources:\n\n" ++
        strJoin ((dedupSources rs).map (fun s => blockOf s m inc))) ∧
      List.IsPrefix "Sources:".toList out.toList ∧
      (dedupSources rs = [] ∨ List.IsPrefix "Sources:\n\n".toList out.toList) := by
  refine ⟨_, _, pipeline_enc rs m inc, rfl, ?_⟩
  cases hL : dedupSources rs with
  | nil =>
      have hempty : pyStrip ("Sources:\n\n" ++ strJoin (([] : List Source).map
          (fun s => blockOf s m inc))) = "Sources:" := rfl
      rw [hempty]
      exact ⟨List.prefix_refl _, Or.inl rfl⟩
  | cons s L =>
      have hq : ∃ c ∈ (blockOf s m inc ++ strJoin (L.map (fun s => blockOf s m inc))).toList,
          pyIsSpace c = false := by
        refine ⟨'S', ?_, by decide⟩
        exact mem_toList_append_left _ _ _ (S_mem_blockOf s m inc)
      have hstrip :
          (pyStrip ("Sources:\n\n" ++ strJoin ((s :: L).map (fun s => blockOf s m inc)))).toList =
            "Sources:\n\n".toList ++
              List.rdropWhile pyIsSpace
                (blockOf s m inc ++ strJoin (L.map (fun s => blockOf s m inc))).toList := by
        have h1 : strJoin ((s :: L).map (fun s => blockOf s m inc)) =
            blockOf s m inc ++ strJoin (L.map (fun s => blockOf s m inc)) := rfl
        rw [h1, pyStrip_toList]
        have h2 : ("Sources:\n\n" ++
            (blockOf s m inc ++ strJoin (L.map (fun s => blockOf s m inc)))).toList =
            "Sources:\n\n".toList ++
              (blockOf s m inc ++ strJoin (L.map (fun s => blockOf s m inc))).toList :=
          toList_append _ _
        rw [h2]
        exact stripList_header _ hq
      constructor
      · have hp : List.IsPrefix "Sources:".toList "Sources:\n\n".toList := by decide
        refine hp.trans ?_
        rw [hstrip]
        exact ⟨_, rfl⟩
      · refine Or.inr ?_
        rw [hstrip]
        exact ⟨_, rfl⟩

/-- C6: with `include_raw_content = false` each record's block is
exactly its three header lines — no raw-content section appears for any
source, whatever its `raw_content` — and the whole output is the
stripped header plus those blocks, with no warnings. -/
theorem no_raw_section_when_disabled (s : Source) (rs : List Source) (m : Int) :
    Utils.formatSource s.toPyVal m false = Except.ok (headerBlock s, []) ∧
    Utils.deduplicate_and_format_sources (mkResponse rs) m false =
      Except.ok (pyStrip ("Sources:\n\n" ++ strJoin ((dedupSources rs).map headerBlock)), []) := by
  constructor
  · rw [formatSource_enc, blockOf_false, warnsOf_false]
  · rw [pipeline_enc]
    have h1 : ((dedupSources rs).map (fun s => blockOf s m false)) =
        (dedupSources rs).map headerBlock := by
      simp only [blockOf_false]
    have h2 : listJoin ((dedupSources rs).map (fun s => warnsOf s false)) = ([] : List String) :=
      listJoin_of_nil _ _ warnsOf_false
    rw [h1, h2]

/-- C7 counterexample: a bare SearchResult dict as a sequence element is
flattened into its key names, not kept as a record. -/
theorem flat_element_yields_keys :
    Utils.normalize (PyVal.list [srcA.toPyVal]) =
      Except.ok (PyVal.list [PyVal.str "title", PyVal.str "url", PyVal.str "content"]) ∧
    PyVal.str "title" ≠ srcA.toPyVal :=
  ⟨rfl, fun h => PyVal.noConfusion h⟩

/-- C7 (amended): a sequence whose elements are SearchResponse objects
or plain sequences of SearchResult records is flattened into one ordered
sequence of records, preserving first-seen order; a bare record as an
element is instead iterated into its field names. -/
theorem normalize_flattens (items : List NormItem) :
    Utils.normalize (PyVal.list (items.map NormItem.toPyVal)) =
      Except.ok (PyVal.list (listJoin (items.map (fun it => it.sources.map Source.toPyVal)))) := by
  have hform : Utils.normalize (PyVal.list (items.map NormItem.toPyVal)) =
      ((items.map NormItem.toPyVal).foldlM Utils.extendStep [] >>=
        fun x => pure (PyVal.list x)) := rfl
  rw [hform, foldl_extend_enc items [], bindOk, pureOk, List.nil_append]

/-- C8: `format_sources` renders one `"* title : url"` line per result,
newline-joined, in input order, without deduplicating by url (every
record contributes a line, duplicates included). -/
theorem format_sources_bullet_lines (rs : List Source) :
    Utils.format_sources (mkResponse rs) =
      Except.ok (String.intercalate "\n"
        (rs.map (fun s => "* " ++ s.title ++ " : " ++ s.url))) := by
  have hres : (mkResponse rs).getItem "results" =
      Except.ok (PyVal.list (rs.map Source.toPyVal)) := rfl
  have hiter : (PyVal.list (rs.map Source.toPyVal)).iter =
      Except.ok (rs.map Source.toPyVal) := rfl
  simp only [Utils.format_sources, hres, bindOk, hiter]
  rw [mapM_lines, bindOk, pureOk]

/-- C9: over well-formed unique sources the formatting phase is total
for every token budget and flag, and the whole operation succeeds on any
well-formed response, so the only errors are those of normalize. -/
theorem formatting_phase_total (rs : List Source) (m : Int) (inc : Bool) :
    (Utils.formatUnique ((dedupSources rs).map pairEnc) m inc).isOk = true ∧
    (Utils.deduplicate_and_format_sources (mkResponse rs) m inc).isOk = true := by
  rw [formatUnique_enc, pipeline_enc]
  exact ⟨rfl, rfl⟩

/-- C10: with `include_raw_content = false` the output is independent of
`max_tokens_per_source` — for every input value whatsoever the two calls
agree. -/
theorem budget_independent_when_disabled (v : PyVal) (m1 m2 : Int) :
    Utils.deduplicate_and_format_sources v m1 false =
      Utils.deduplicate_and_format_sources v m2 false := by
  unfold Utils.deduplicate_and_format_sources
  refine bindCongr _ _ _ (fun sources_list => ?_)
  refine bindCongr _ _ _ (fun srcs => ?_)
  refine bindCongr _ _ _ (fun unique_sources => ?_)
  unfold Utils.formatUnique
  rfl
